import Mathlib

/-!
# Verification of the 3DEP elevation → H3 aggregation pipeline

A shallow embedding of the tile-partitioned elevation aggregation pipeline
from `elevation_h3_clean.py` (and the single-pass variant from
`elevation_h3.py`).  Elevation values and coordinates are modelled as
rationals; H3 cell identifiers as integers.  The DuckDB queries
`SELECT key, AVG(val) ... GROUP BY 1` used both per tile and in the merge
step are embedded as `groupByAvg`.  The worker / pool control flow
(`process_tile_to_h3` / `process_all_tiles`) is embedded with explicit
`Except` values standing for Python exceptions, with the outcomes of the
external collaborators (odc-stac raster fetch, pyproj reprojection, the
DuckDB session) injected through a `TileEnv` record.
-/

namespace Elev

/-- SQL `AVG` over a list of rational values: sum divided by count.
(`AVG` of an empty list never arises: GROUP BY only produces non-empty
groups; Lean's `x / 0 = 0` convention is unreachable there.) -/
def avg (l : List ℚ) : ℚ := l.sum / l.length

/-- Embedding of `SELECT key, AVG(val) FROM rows GROUP BY 1`: one output row
per distinct key (in first-appearance order), carrying the arithmetic mean of
`val` over the rows with that key.  Used by both the per-tile aggregation
query in `process_tile_to_h3` and the merge query in `process_all_tiles`. -/
def groupByAvg (rows : List α) (key : α → ℤ) (val : α → ℚ) : List (ℤ × ℚ) :=
  ((rows.map key).dedup).map
    (fun k => (k, avg (((rows.filter (fun r => key r == k))).map val)))

/-- One reprojected raster sample: latitude, longitude, elevation
(the rows of the `tile_pa` Arrow table built in `process_tile_to_h3`). -/
structure GeoSample where
  lat : ℚ
  lng : ℚ
  elevation : ℚ
deriving Repr, DecidableEq

/-- The H3 cell of a sample: `h3_latlng_to_cell(lat, lng, h3_res)` for a fixed
resolution, abstracted as a deterministic indexing function `toHex`. -/
def hexOf (toHex : ℚ → ℚ → ℤ) (s : GeoSample) : ℤ := toHex s.lat s.lng

/-- The per-tile aggregation query of `process_tile_to_h3`:
`SELECT h3_latlng_to_cell(lat, lng, res) AS hex, AVG(elevation) AS metric
FROM tile_pa GROUP BY 1`. -/
def tileAggregate (toHex : ℚ → ℚ → ℤ) (samples : List GeoSample) : List (ℤ × ℚ) :=
  groupByAvg samples (hexOf toHex) GeoSample.elevation

/-- The merge query of `process_all_tiles` on the concatenated per-tile
tables: `SELECT hex, AVG(metric) AS metric FROM combined GROUP BY 1`,
where `combined = pa.concat_tables(batches)`. -/
def mergeTables (tables : List (List (ℤ × ℚ))) : List (ℤ × ℚ) :=
  groupByAvg tables.flatten Prod.fst Prod.snd

/-- The single-pass aggregation of `elevation_h3.py`: all samples of the
whole area in one table, `SELECT h3_latlng_to_cell(lat, lng, res) AS hex,
AVG(elevation) AS metric FROM pixels_table GROUP BY 1`. -/
def singlePassAggregate (toHex : ℚ → ℚ → ℤ) (samples : List GeoSample) : List (ℤ × ℚ) :=
  groupByAvg samples (hexOf toHex) GeoSample.elevation

/-- The two-phase aggregation of `elevation_h3_clean.py` on per-tile sample
lists: each tile is aggregated locally by `tileAggregate`; empty per-tile
tables are dropped (`len(result) > 0` in `process_all_tiles`); the surviving
tables are merged by `mergeTables`. -/
def twoPhaseAggregate (toHex : ℚ → ℚ → ℤ) (tiles : List (List GeoSample)) : List (ℤ × ℚ) :=
  mergeTables (((tiles.map (tileAggregate toHex))).filter (fun t => !t.isEmpty))

/-- Reading a hex table as a mapping: the metric of the first row carrying
hex id `h`, if any (per-tile and merged tables carry each hex id at most
once, so "first" is immaterial there). -/
def lookupMetric (h : ℤ) : List (ℤ × ℚ) → Option ℚ
  | [] => none
  | (k, v) :: rest => if k = h then some v else lookupMetric h rest

/-- Python's built-in `round` on a rational value: round half to even
(banker's rounding). -/
def pythonRound (q : ℚ) : ℤ :=
  if q - ⌊q⌋ < 1/2 then ⌊q⌋
  else if 1/2 < q - ⌊q⌋ then ⌊q⌋ + 1
  else if ⌊q⌋ % 2 = 0 then ⌊q⌋ else ⌊q⌋ + 1

/-- `calculate_resolution_for_h3`:
`target = hex_edge_m / pixels_per_hex_edge;`
`resolution = max(round(target / native_resolution) * native_resolution, native_resolution)`.
`hex_edge_m` stands for the value returned by the external
`h3.average_hexagon_edge_length(h3_res, unit='m')`. -/
def calculate_resolution_for_h3
    (hex_edge_m native_resolution pixels_per_hex_edge : ℚ) : ℚ :=
  max ((pythonRound ((hex_edge_m / pixels_per_hex_edge) / native_resolution) : ℚ) *
        native_resolution)
    native_resolution

/-- A per-tile raster sample grid as returned by the raster-loading
collaborator (`odc.stac.load` + band selection + max over time): elevation
values with their projected coordinate axes. -/
structure SampleGrid where
  xs : List ℚ
  ys : List ℚ
  vals : List ℚ
deriving Repr, DecidableEq

/-- The collaborator outcomes one `process_tile_to_h3` call can observe,
one field per step that can raise a Python exception: `fetch` is the
`odc.stac.load(...)` call (the only step inside the worker's `try/except`),
`reproject` the pyproj `transformer.transform` call together with the Arrow
table construction, and `tileQuery` the per-tile DuckDB aggregation query.
Errors carry the Python exception message. -/
structure TileEnv where
  fetch : Except String SampleGrid
  reproject : SampleGrid → Except String (List GeoSample)
  tileQuery : List GeoSample → Except String (List (ℤ × ℚ))

/-- `process_tile_to_h3`: the `try/except Exception: return None` wraps only
the raster fetch; the reprojection and the aggregation query run outside it,
so their exceptions escape the worker. -/
def process_tile_to_h3 (env : TileEnv) : Except String (Option (List (ℤ × ℚ))) :=
  match env.fetch with
  | .error _ => .ok none
  | .ok grid =>
    match env.reproject grid with
    | .error e => .error e
    | .ok samples =>
      match env.tileQuery samples with
      | .error e => .error e
      | .ok table => .ok (some table)

/-- The collection loop of `process_all_tiles`: `future.result()` re-raises
any exception that escaped a worker; a `None` result is skipped; a table
failing the `len(result) > 0` check is skipped as well. -/
def collectBatches : List TileEnv → Except String (List (List (ℤ × ℚ)))
  | [] => .ok []
  | env :: rest =>
    match process_tile_to_h3 env with
    | .error e => .error e
    | .ok r =>
      match collectBatches rest with
      | .error e => .error e
      | .ok bs =>
        match r with
        | some t => .ok (if t.isEmpty then bs else t :: bs)
        | none => .ok bs

/-- The pipeline-level failures of `process_all_tiles`: a worker exception
re-raised by `future.result()`, or the
`RuntimeError("No tiles produced data")` raised when no batch survives.
`configurationError` is the `ConfigurationError` of the spec's error
taxonomy; the code never raises it (no configuration validation exists in
the source) — the constructor only makes that absence expressible. -/
inductive PipelineError where
  | propagated (e : String)
  | noData
  | configurationError
deriving Repr, DecidableEq

/-- `process_all_tiles`: run all tile workers, keep the non-`None`,
non-empty tables, raise `RuntimeError` if none survive, otherwise merge. -/
def process_all_tiles (envs : List TileEnv) : Except PipelineError (List (ℤ × ℚ)) :=
  match collectBatches envs with
  | .error e => .error (.propagated e)
  | .ok batches =>
    if batches.isEmpty then .error .noData else .ok (mergeTables batches)

/-- The tables of the workers that succeed with a non-empty result, in
submission order. -/
def successTables (envs : List TileEnv) : List (List (ℤ × ℚ)) :=
  envs.filterMap (fun env =>
    match process_tile_to_h3 env with
    | .ok (some t) => if t.isEmpty then none else some t
    | _ => none)

/-- A worker environment whose raster fetch fails (coverage gap / fetch
failure). -/
def fetchFailEnv : TileEnv :=
  ⟨.error "no coverage", fun _ => .ok [], fun _ => .ok []⟩

/-- A worker environment in which every step succeeds, producing the
one-row table `[(0, 5)]`. -/
def okEnv : TileEnv :=
  ⟨.ok ⟨[0], [0], [5]⟩, fun _ => .ok [⟨0, 0, 5⟩], fun _ => .ok [(0, 5)]⟩

/-- A worker environment whose per-tile aggregation query raises. -/
def queryFailEnv : TileEnv :=
  ⟨.ok ⟨[0], [0], [5]⟩, fun _ => .ok [], fun _ => .error "duckdb error"⟩

/-- A worker environment in which every step succeeds but the per-tile
table is empty. -/
def emptyTableEnv : TileEnv :=
  ⟨.ok ⟨[], [], []⟩, fun _ => .ok [], fun _ => .ok []⟩

/-- A geographic bounding box (west, south, east, north) as configured in
the notebook's configuration cell. -/
structure BoundingBox where
  west : ℚ
  south : ℚ
  east : ℚ
  north : ℚ
deriving Repr, DecidableEq

/-- `get_tiles`: `tms.tiles(*bbox, zooms=[zoom])` — the bounding box is
handed to the external morecantile tiling collaborator unchecked.  The
collaborator (together with the per-tile collaborator outcomes each tile's
worker will observe) is abstracted as `tms`. -/
def get_tiles (tms : BoundingBox → ℤ → List TileEnv) (bbox : BoundingBox)
    (zoom : ℤ) : List TileEnv :=
  tms bbox zoom

/-- The notebook's driver cell:
`tiles, tms = get_tiles(bbox, TILE_ZOOM); hex_result = process_all_tiles(...)`.
No validation of the bounding box or the resolution parameters happens
anywhere between the configuration cell and the dispatch of tile work. -/
def run_pipeline (tms : BoundingBox → ℤ → List TileEnv) (bbox : BoundingBox)
    (zoom : ℤ) : Except PipelineError (List (ℤ × ℚ)) :=
  process_all_tiles (get_tiles tms bbox zoom)

/-- A tiling collaborator yielding one tile whose worker succeeds (the
actual morecantile scheme does yield tiles for a west ≥ east box, which it
reads as crossing the antimeridian). -/
def oneTileTms : BoundingBox → ℤ → List TileEnv := fun _ _ => [okEnv]

/-- An invalid bounding box: west (2) ≥ east (1). -/
def badBbox : BoundingBox := ⟨2, 0, 1, 1⟩

/-! ## Generic facts about the `GROUP BY`/`AVG` embedding -/

theorem map_fst_groupByAvg (rows : List α) (key : α → ℤ) (val : α → ℚ) :
    (groupByAvg rows key val).map Prod.fst = (rows.map key).dedup := by
  simp [groupByAvg, List.map_map, Function.comp_def]

theorem lookupMetric_map_pair (l : List ℤ) (f : ℤ → ℚ) (h : ℤ) :
    lookupMetric h (l.map (fun k => (k, f k))) =
      if h ∈ l then some (f h) else none := by
  induction l with
  | nil => simp [lookupMetric]
  | cons k l ih =>
    by_cases hk : k = h
    · subst hk; simp [lookupMetric]
    · simp only [List.map_cons, lookupMetric, if_neg hk, ih, List.mem_cons]
      by_cases hm : h ∈ l
      · rw [if_pos hm, if_pos (Or.inr hm)]
      · rw [if_neg hm, if_neg (by rintro (rfl | hc) <;> simp_all)]

theorem lookupMetric_groupByAvg (rows : List α) (key : α → ℤ) (val : α → ℚ) (h : ℤ) :
    lookupMetric h (groupByAvg rows key val) =
      if h ∈ rows.map key then
        some (avg ((rows.filter (fun r => key r == h)).map val))
      else none := by
  unfold groupByAvg
  rw [lookupMetric_map_pair]
  simp [List.mem_dedup]

theorem lookupMetric_mergeTables (tables : List (List (ℤ × ℚ))) (h : ℤ) :
    lookupMetric h (mergeTables tables) =
      if h ∈ (tables.flatten).map Prod.fst then
        some (avg (((tables.flatten).filter (fun r => r.1 == h)).map Prod.snd))
      else none := by
  unfold mergeTables
  exact lookupMetric_groupByAvg _ _ _ _

theorem filter_key_eq_nil {t : List (ℤ × ℚ)} {h : ℤ} (hn : h ∉ t.map Prod.fst) :
    t.filter (fun r => r.1 == h) = [] := by
  rw [List.filter_eq_nil_iff]
  intro r hr
  simp only [beq_iff_eq]
  exact fun he => hn (he ▸ List.mem_map_of_mem Prod.fst hr)

theorem filter_map_snd_of_nodup {t : List (ℤ × ℚ)} (hnd : (t.map Prod.fst).Nodup) (h : ℤ) :
    (t.filter (fun r => r.1 == h)).map Prod.snd = (lookupMetric h t).toList := by
  induction t with
  | nil => rfl
  | cons r rest ih =>
    obtain ⟨k, v⟩ := r
    simp only [List.map_cons, List.nodup_cons] at hnd
    by_cases hk : k = h
    · subst hk
      rw [List.filter_cons_of_pos (by simp)]
      rw [filter_key_eq_nil hnd.1]
      simp [lookupMetric]
    · rw [List.filter_cons_of_neg (by simp [hk])]
      simp only [lookupMetric, if_neg hk]
      exact ih hnd.2

theorem flatten_map_toList (l : List α) (f : α → Option β) :
    (l.map (fun t => (f t).toList)).flatten = l.filterMap f := by
  induction l with
  | nil => rfl
  | cons t rest ih =>
    cases hf : f t <;> simp [List.filterMap_cons, hf, ih]

theorem avg_of_perm {l₁ l₂ : List ℚ} (hp : l₁.Perm l₂) : avg l₁ = avg l₂ := by
  unfold avg
  rw [hp.sum_eq, hp.length_eq]

/-! ## Claims about the Result Merger -/

/-- C2: the Result Merger concatenates the per-tile rows, groups by hex id
and returns, for every hex id present, the unweighted arithmetic mean of the
per-tile metric values (the tile-local means) contributed for it. -/
theorem mergeTables_mean_of_tile_means (tables : List (List (ℤ × ℚ)))
    (hnd : ∀ t ∈ tables, (t.map Prod.fst).Nodup) (h : ℤ)
    (hmem : h ∈ (tables.flatten).map Prod.fst) :
    lookupMetric h (mergeTables tables) =
      some (avg (tables.filterMap (lookupMetric h))) := by
  rw [lookupMetric_mergeTables, if_pos hmem]
  congr 1
  rw [List.filter_flatten, List.map_flatten, List.map_map]
  rw [show (List.map Prod.snd ∘ List.filter (fun r => r.1 == h)) =
        (fun t : List (ℤ × ℚ) => (t.filter (fun r => r.1 == h)).map Prod.snd)
      from rfl]
  rw [show List.map
        (fun t : List (ℤ × ℚ) => (t.filter (fun r => r.1 == h)).map Prod.snd) tables =
      List.map (fun t : List (ℤ × ℚ) => (lookupMetric h t).toList) tables from
    List.map_congr_left (fun t ht => filter_map_snd_of_nodup (hnd t ht) h)]
  rw [flatten_map_toList]

/-- C2 witness: two tiles contribute hex id 5 with local means 100 and 200;
the merged metric for 5 is 150. -/
theorem mergeTables_mean_of_tile_means_witness :
    lookupMetric 5 (mergeTables [[(5, 100)], [(5, 200)]]) = some 150 := by
  rw [mergeTables_mean_of_tile_means [[(5, 100)], [(5, 200)]] (by decide) 5 (by decide)]
  simp only [List.filterMap_cons, List.filterMap_nil, lookupMetric]
  norm_num [avg]

/-- C5: the merged table carries each hex id exactly once, and its hex-id set
is exactly the union of the hex-id sets of the input tables: none lost, none
invented. -/
theorem merge_hex_id_conservation (tables : List (List (ℤ × ℚ)))
    (hne : tables ≠ []) :
    ((mergeTables tables).map Prod.fst).Nodup ∧
      ∀ h, (h ∈ (mergeTables tables).map Prod.fst ↔
        ∃ t ∈ tables, h ∈ t.map Prod.fst) := by
  unfold mergeTables
  rw [map_fst_groupByAvg]
  refine ⟨List.nodup_dedup _, fun h => ?_⟩
  rw [List.mem_dedup]
  simp only [List.mem_map, List.mem_flatten]
  constructor
  · rintro ⟨r, ⟨t, ht, hr⟩, rfl⟩
    exact ⟨t, ht, r, hr, rfl⟩
  · rintro ⟨t, ht, r, hr, rfl⟩
    exact ⟨r, ⟨t, ht, hr⟩, rfl⟩

/-- C5 witness at a concrete input: three tables, hex id 1 split across two
of them. -/
theorem merge_hex_id_conservation_witness :
    ((mergeTables [[(1, 2)], [(1, 3), (4, 5)]]).map Prod.fst).Nodup ∧
      (1 ∈ (mergeTables [[(1, 2)], [(1, 3), (4, 5)]]).map Prod.fst ↔
        ∃ t ∈ ([[(1, 2)], [(1, 3), (4, 5)]] : List (List (ℤ × ℚ))),
          1 ∈ t.map Prod.fst) := by
  have hc := merge_hex_id_conservation [[(1, 2)], [(1, 3), (4, 5)]] (by decide)
  exact ⟨hc.1, hc.2 1⟩

/-- C9: the merge step is order- and batching-independent: whenever two lists
of per-tile tables concatenate to the same multiset of rows, the merged
tables define the same mapping from hex ids to metrics. -/
theorem merge_order_independent (tables1 tables2 : List (List (ℤ × ℚ)))
    (hperm : tables1.flatten.Perm tables2.flatten) (h : ℤ) :
    lookupMetric h (mergeTables tables1) = lookupMetric h (mergeTables tables2) := by
  rw [lookupMetric_mergeTables, lookupMetric_mergeTables]
  have hmem : (h ∈ tables1.flatten.map Prod.fst) ↔ (h ∈ tables2.flatten.map Prod.fst) :=
    (hperm.map Prod.fst).mem_iff
  by_cases hm : h ∈ tables1.flatten.map Prod.fst
  · rw [if_pos hm, if_pos (hmem.mp hm)]
    exact congrArg some (avg_of_perm ((hperm.filter _).map Prod.snd))
  · rw [if_neg hm, if_neg (fun hc => hm (hmem.mpr hc))]

/-- C9 witness: swapping the two batches (and re-batching them into one)
leaves the merged metric for hex id 1 unchanged. -/
theorem merge_order_independent_witness :
    lookupMetric 1 (mergeTables [[(1, 100)], [(1, 200)]]) =
      lookupMetric 1 (mergeTables [[(1, 200), (1, 100)]]) :=
  merge_order_independent [[(1, 100)], [(1, 200)]] [[(1, 200), (1, 100)]] (by decide) 1

/-! ## The Resolution Planner -/

theorem floor_le_pythonRound (q : ℚ) : ⌊q⌋ ≤ pythonRound q := by
  unfold pythonRound
  split_ifs <;> omega

theorem pythonRound_le_floor_add_one (q : ℚ) : pythonRound q ≤ ⌊q⌋ + 1 := by
  unfold pythonRound
  split_ifs <;> omega

theorem pythonRound_mono {x y : ℚ} (hxy : x ≤ y) : pythonRound x ≤ pythonRound y := by
  rcases lt_or_eq_of_le (Int.floor_mono hxy) with hf | hf
  · calc pythonRound x ≤ ⌊x⌋ + 1 := pythonRound_le_floor_add_one x
      _ ≤ ⌊y⌋ := by omega
      _ ≤ pythonRound y := floor_le_pythonRound y
  · unfold pythonRound
    rw [← hf]
    split_ifs <;> first | omega | linarith

theorem abs_pythonRound_sub_le (q : ℚ) : |(pythonRound q : ℚ) - q| ≤ 1/2 := by
  have h1 : (⌊q⌋ : ℚ) ≤ q := Int.floor_le q
  have h2 : q < ⌊q⌋ + 1 := Int.lt_floor_add_one q
  rw [abs_le]
  unfold pythonRound
  split_ifs <;> constructor <;> push_cast <;> linarith

theorem pythonRound_nearest (q : ℚ) (m : ℤ) :
    |(pythonRound q : ℚ) - q| ≤ |(m : ℚ) - q| := by
  by_cases hm : m = pythonRound q
  · subst hm; exact le_refl _
  · have h0 : (1 : ℤ) ≤ |m - pythonRound q| := Int.one_le_abs (sub_ne_zero.mpr hm)
    have h1 : (1 : ℚ) ≤ |(m : ℚ) - (pythonRound q : ℚ)| := by
      exact_mod_cast h0
    have h2 := abs_pythonRound_sub_le q
    have h3 : |(m : ℚ) - (pythonRound q : ℚ)| ≤
        |(m : ℚ) - q| + |q - (pythonRound q : ℚ)| := abs_sub_le _ _ _
    have h4 : |q - (pythonRound q : ℚ)| = |(pythonRound q : ℚ) - q| := abs_sub_comm _ _
    linarith

/-- C7: for positive parameters, the planned resolution is
`edge_length / pixels_per_edge` rounded to a nearest multiple of
`native_resolution` (first conjunct: no other multiple is strictly closer to
the target), floored at `native_resolution` (second conjunct), and it is
always a positive multiple of `native_resolution` (third conjunct). -/
theorem calculate_resolution_spec
    (hex_edge_m native_resolution pixels_per_hex_edge : ℚ)
    (he : 0 < hex_edge_m) (hn : 0 < native_resolution)
    (hp : 0 < pixels_per_hex_edge) :
    (∀ m : ℤ,
      |(pythonRound ((hex_edge_m / pixels_per_hex_edge) / native_resolution) : ℚ) *
            native_resolution - hex_edge_m / pixels_per_hex_edge| ≤
        |(m : ℚ) * native_resolution - hex_edge_m / pixels_per_hex_edge|) ∧
    native_resolution ≤
      calculate_resolution_for_h3 hex_edge_m native_resolution pixels_per_hex_edge ∧
    ∃ k : ℤ, 0 < k ∧
      calculate_resolution_for_h3 hex_edge_m native_resolution pixels_per_hex_edge =
        (k : ℚ) * native_resolution := by
  set t := hex_edge_m / pixels_per_hex_edge with ht
  set x := t / native_resolution with hxdef
  have hxn : x * native_resolution = t := div_mul_cancel₀ t (ne_of_gt hn)
  refine ⟨fun m => ?_, le_max_right _ _, ?_⟩
  · have e1 : (pythonRound x : ℚ) * native_resolution - t =
        ((pythonRound x : ℚ) - x) * native_resolution := by rw [sub_mul, hxn]
    have e2 : (m : ℚ) * native_resolution - t =
        ((m : ℚ) - x) * native_resolution := by rw [sub_mul, hxn]
    rw [e1, e2, abs_mul, abs_mul, abs_of_pos hn]
    exact mul_le_mul_of_nonneg_right (pythonRound_nearest x m) hn.le
  · unfold calculate_resolution_for_h3
    rw [← ht, ← hxdef]
    by_cases hcase : native_resolution ≤ (pythonRound x : ℚ) * native_resolution
    · refine ⟨pythonRound x, ?_, max_eq_left hcase⟩
      by_contra hk
      push_neg at hk
      have : ((pythonRound x : ℤ) : ℚ) ≤ 0 := by exact_mod_cast hk
      nlinarith
    · exact ⟨1, one_pos, by rw [max_eq_right (le_of_not_le hcase)]; norm_num⟩

/-- C7 witness: with hex edge 25 m, native resolution 10 m and 6 pixels per
edge, the planned resolution is bounded below by the native resolution. -/
theorem calculate_resolution_spec_witness :
    (0 : ℚ) < 10 ∧ (10 : ℚ) ≤ calculate_resolution_for_h3 25 10 6 :=
  ⟨by norm_num,
    (calculate_resolution_spec 25 10 6 (by norm_num) (by norm_num) (by norm_num)).2.1⟩

/-- C8: for a fixed hex edge length and native resolution, increasing
`pixels_per_hex_edge` never coarsens the planned resolution: the resolution
at the larger pixel count is at most the one at the smaller count, and both
stay bounded below by `native_resolution`. -/
theorem calculate_resolution_antitone
    (hex_edge_m native_resolution p1 p2 : ℚ)
    (he : 0 < hex_edge_m) (hn : 0 < native_resolution) (hp1 : 0 < p1)
    (hle : p1 ≤ p2) :
    calculate_resolution_for_h3 hex_edge_m native_resolution p2 ≤
        calculate_resolution_for_h3 hex_edge_m native_resolution p1 ∧
      native_resolution ≤ calculate_resolution_for_h3 hex_edge_m native_resolution p1 ∧
      native_resolution ≤ calculate_resolution_for_h3 hex_edge_m native_resolution p2 := by
  have hp2 : 0 < p2 := lt_of_lt_of_le hp1 hle
  have ht : hex_edge_m / p2 ≤ hex_edge_m / p1 := by gcongr
  have hx : (hex_edge_m / p2) / native_resolution ≤
      (hex_edge_m / p1) / native_resolution := by gcongr
  have hr := pythonRound_mono hx
  refine ⟨?_, le_max_right _ _, le_max_right _ _⟩
  unfold calculate_resolution_for_h3
  refine max_le_max ?_ (le_refl native_resolution)
  exact mul_le_mul_of_nonneg_right (by exact_mod_cast hr) hn.le

/-- C8 witness: doubling the pixels-per-edge target from 6 to 12 does not
coarsen the planned resolution. -/
theorem calculate_resolution_antitone_witness :
    calculate_resolution_for_h3 25 10 12 ≤ calculate_resolution_for_h3 25 10 6 :=
  (calculate_resolution_antitone 25 10 6 12 (by norm_num) (by norm_num)
    (by norm_num) (by norm_num)).1

/-! ## The Tile Worker and the Worker Pool -/

theorem collectBatches_ok {envs : List TileEnv}
    (h : ∀ env ∈ envs, ∀ e, process_tile_to_h3 env ≠ .error e) :
    collectBatches envs = .ok (successTables envs) := by
  induction envs with
  | nil => rfl
  | cons env rest ih =>
    have hrest := ih (fun env' hm e => h env' (List.mem_cons_of_mem _ hm) e)
    cases hpt : process_tile_to_h3 env with
    | error e => exact absurd hpt (h env (List.mem_cons_self _ _) e)
    | ok r =>
      cases r with
      | none =>
        simp only [collectBatches, hpt, hrest, successTables, List.filterMap_cons]
      | some t =>
        by_cases hempty : t.isEmpty
        · simp only [collectBatches, hpt, hrest, successTables,
            List.filterMap_cons, if_pos hempty]
        · simp only [collectBatches, hpt, hrest, successTables,
            List.filterMap_cons, if_neg hempty]

theorem worker_no_error {env : TileEnv}
    (hrep : ∀ g e, env.reproject g ≠ .error e)
    (hq : ∀ s e, env.tileQuery s ≠ .error e) :
    ∀ e, process_tile_to_h3 env ≠ .error e := by
  intro e
  cases hf : env.fetch with
  | error e' => simp [process_tile_to_h3, hf]
  | ok grid =>
    cases hr : env.reproject grid with
    | error e' => exact absurd hr (hrep grid e')
    | ok samples =>
      cases hq2 : env.tileQuery samples with
      | error e' => exact absurd hq2 (hq samples e')
      | ok table => simp [process_tile_to_h3, hf, hr, hq2]

/-- C3 counterexample: a worker whose raster fetch succeeds but whose
per-tile aggregation query raises does not return `NONE`; the exception
escapes the worker and `process_all_tiles` re-raises it — a per-tile error
propagating out of the Worker Pool, contrary to the claim. -/
theorem query_error_propagates_example :
    process_all_tiles [queryFailEnv] = .error (.propagated "duckdb error") := rfl

/-- C3 (amended): a failure of the raster fetch/decode step makes the worker
return `NONE` and is contained; and when no worker's reprojection or
per-tile query can raise, no exception propagates out of
`process_all_tiles`.  Failures after the fetch, however, are not contained
(see the counterexample). -/
theorem worker_error_containment_amended :
    (∀ env : TileEnv, ∀ e, env.fetch = .error e → process_tile_to_h3 env = .ok none) ∧
    (∀ envs : List TileEnv,
      (∀ env ∈ envs, (∀ g e, env.reproject g ≠ .error e) ∧
        (∀ s e, env.tileQuery s ≠ .error e)) →
      ∀ e, process_all_tiles envs ≠ .error (.propagated e)) := by
  constructor
  · intro env e hf
    unfold process_tile_to_h3
    rw [hf]
  · intro envs h e
    have hc := collectBatches_ok
      (fun env hm => worker_no_error (h env hm).1 (h env hm).2)
    unfold process_all_tiles
    rw [hc]
    by_cases hempty : (successTables envs).isEmpty <;>
      simp [hempty]

/-- C3 witness: a coverage-gap worker returns `NONE`; a pool of one
fully-succeeding worker cannot re-raise the exception "boom". -/
theorem worker_error_containment_witness :
    process_tile_to_h3 fetchFailEnv = .ok none ∧
      process_all_tiles [okEnv] ≠ .error (.propagated "boom") :=
  ⟨worker_error_containment_amended.1 fetchFailEnv "no coverage" rfl,
    worker_error_containment_amended.2 [okEnv]
      (by
        intro env hm
        rw [List.mem_singleton] at hm
        subst hm
        exact ⟨fun g e h => Except.noConfusion h, fun s e h => Except.noConfusion h⟩)
      "boom"⟩

theorem successTables_eq_nil_iff {envs : List TileEnv}
    (hdich : ∀ env ∈ envs, process_tile_to_h3 env = .ok none ∨
      ∃ t, ¬t.isEmpty ∧ process_tile_to_h3 env = .ok (some t)) :
    successTables envs = [] ↔ ∀ env ∈ envs, process_tile_to_h3 env = .ok none := by
  induction envs with
  | nil => simp [successTables]
  | cons env rest ih =>
    have ihr := ih (fun env' hm => hdich env' (List.mem_cons_of_mem _ hm))
    rcases hdich env (List.mem_cons_self _ _) with hnone | ⟨t, htne, hsome⟩
    · simp only [successTables, List.filterMap_cons, hnone]
      rw [show successTables rest =
          List.filterMap _ rest from rfl] at ihr
      rw [ihr]
      constructor
      · intro hall env' hm
        rcases List.mem_cons.mp hm with rfl | hm'
        · exact hnone
        · exact hall env' hm'
      · intro hall env' hm
        exact hall env' (List.mem_cons_of_mem _ hm)
    · simp only [successTables, List.filterMap_cons, hsome, if_neg htne]
      constructor
      · intro hc
        exact absurd hc (List.cons_ne_nil _ _)
      · intro hall
        have h2 := (hall env (List.mem_cons_self _ _)).symm.trans hsome
        simp at h2

/-- C4: when every worker either fails (returns `NONE`) or succeeds with a
non-empty table, the pipeline returns the merge of exactly the successful
tables whenever at least one worker succeeded; it fails — with the explicit
no-data error, never a silent empty result — exactly when no worker produced
a result, i.e. exactly when all workers failed (which covers the empty tile
list). -/
theorem partial_failure_tolerance (envs : List TileEnv)
    (hdich : ∀ env ∈ envs, process_tile_to_h3 env = .ok none ∨
      ∃ t, ¬t.isEmpty ∧ process_tile_to_h3 env = .ok (some t)) :
    (successTables envs ≠ [] →
      process_all_tiles envs = .ok (mergeTables (successTables envs))) ∧
    (process_all_tiles envs = .error .noData ↔ successTables envs = []) ∧
    (successTables envs = [] ↔ ∀ env ∈ envs, process_tile_to_h3 env = .ok none) := by
  have hne : ∀ env ∈ envs, ∀ e, process_tile_to_h3 env ≠ .error e := by
    intro env hm e
    rcases hdich env hm with hnone | ⟨t, _, hsome⟩
    · rw [hnone]; exact fun h => Except.noConfusion h
    · rw [hsome]; exact fun h => Except.noConfusion h
  have hc := collectBatches_ok hne
  have hform : process_all_tiles envs =
      if (successTables envs).isEmpty then Except.error PipelineError.noData
      else Except.ok (mergeTables (successTables envs)) := by
    unfold process_all_tiles
    rw [hc]
  refine ⟨?_, ?_, successTables_eq_nil_iff hdich⟩
  · intro hS
    rw [hform, if_neg (by simpa [List.isEmpty_iff] using hS)]
  · rw [hform]
    by_cases hS : successTables envs = []
    · simp [hS]
    · rw [if_neg (by simpa [List.isEmpty_iff] using hS)]
      simp [hS]

/-- C4 witness: one of two tiles fails, the pipeline still returns the
merge of the single success. -/
theorem partial_failure_tolerance_witness :
    process_all_tiles [fetchFailEnv, okEnv] = .ok (mergeTables [[(0, 5)]]) :=
  (partial_failure_tolerance [fetchFailEnv, okEnv]
    (by
      intro env hm
      rcases List.mem_cons.mp hm with rfl | hm'
      · exact Or.inl rfl
      · rcases List.mem_cons.mp hm' with rfl | hm''
        · exact Or.inr ⟨[(0, 5)], by simp, rfl⟩
        · cases hm'')).1
    (by intro h; exact List.noConfusion h)

/-- C10: a non-`NONE` worker result with zero rows is excluded from the
merge input (dropping it from the collection loop changes nothing), and it
counts as a failure for the zero-successes check: if every worker returns
`NONE` or an empty table, `process_all_tiles` raises the fatal no-data
error. -/
theorem empty_tables_excluded :
    (∀ env envs, process_tile_to_h3 env = .ok (some []) →
      collectBatches (env :: envs) = collectBatches envs) ∧
    (∀ envs : List TileEnv,
      (∀ env ∈ envs, process_tile_to_h3 env = .ok none ∨
        process_tile_to_h3 env = .ok (some [])) →
      process_all_tiles envs = .error .noData) := by
  have hcons : ∀ (env : TileEnv) (rest : List TileEnv),
      collectBatches (env :: rest) =
        match process_tile_to_h3 env with
        | .error e => .error e
        | .ok r =>
          match collectBatches rest with
          | .error e => .error e
          | .ok bs =>
            match r with
            | some t => .ok (if t.isEmpty then bs else t :: bs)
            | none => .ok bs := fun _ _ => rfl
  constructor
  · intro env envs h
    rw [hcons, h]
    cases hc : collectBatches envs <;> simp [hc]
  · intro envs h
    have hnil : collectBatches envs = .ok [] := by
      induction envs with
      | nil => rfl
      | cons env rest ih =>
        have ihr := ih (fun env' hm => h env' (List.mem_cons_of_mem _ hm))
        rcases h env (List.mem_cons_self _ _) with hnone | hempty
        · simp only [collectBatches, hnone, ihr]
        · simp only [collectBatches, hempty, ihr, List.isEmpty_nil, if_pos]
    unfold process_all_tiles
    rw [hnil]
    rfl

/-- C10 witness: dropping a worker that produced an empty table changes
nothing; a pool of one coverage-gap worker and one empty-table worker
raises the no-data error. -/
theorem empty_tables_excluded_witness :
    collectBatches [emptyTableEnv] = collectBatches [] ∧
      process_all_tiles [fetchFailEnv, emptyTableEnv] = .error .noData :=
  ⟨empty_tables_excluded.1 emptyTableEnv [] rfl,
    empty_tables_excluded.2 [fetchFailEnv, emptyTableEnv]
      (by
        intro env hm
        rcases List.mem_cons.mp hm with rfl | hm'
        · exact Or.inl rfl
        · rcases List.mem_cons.mp hm' with rfl | hm''
          · exact Or.inr rfl
          · cases hm'')⟩

/-! ## Configuration and dispatch -/

/-- C6 counterexample: for a bounding box with west ≥ east the pipeline does
not fail fast with a `ConfigurationError`; tile work is dispatched and the
run completes normally, returning a merged result. -/
theorem invalid_bbox_no_failfast_example :
    badBbox.east ≤ badBbox.west ∧
      run_pipeline oneTileTms badBbox 12 = .ok (mergeTables [[(0, 5)]]) :=
  ⟨by norm_num [badBbox], rfl⟩

/-- C6 (amended): the code performs no configuration validation: for every
bounding box — in particular every invalid one — the pipeline never fails
with a `ConfigurationError`, and tile work is dispatched unconditionally
(the run is exactly `process_all_tiles` applied to the split tiles). -/
theorem no_configuration_validation
    (tms : BoundingBox → ℤ → List TileEnv) (bbox : BoundingBox) (zoom : ℤ)
    (hbad : bbox.east ≤ bbox.west ∨ bbox.north ≤ bbox.south) :
    run_pipeline tms bbox zoom ≠ .error .configurationError ∧
      run_pipeline tms bbox zoom = process_all_tiles (tms bbox zoom) := by
  refine ⟨?_, rfl⟩
  unfold run_pipeline get_tiles process_all_tiles
  cases collectBatches (tms bbox zoom) with
  | error e => simp
  | ok batches =>
    by_cases hb : batches.isEmpty <;> simp [hb]

/-- C6 witness: at the concrete invalid bounding box, no
`ConfigurationError` arises. -/
theorem no_configuration_validation_witness :
    run_pipeline oneTileTms badBbox 12 ≠ .error .configurationError :=
  (no_configuration_validation oneTileTms badBbox 12
    (Or.inl (by norm_num [badBbox]))).1

/-! ## Two-phase versus single-pass aggregation -/

theorem flatten_filter_ne_empty (l : List (List α)) :
    (l.filter (fun t => !t.isEmpty)).flatten = l.flatten := by
  induction l with
  | nil => rfl
  | cons t rest ih => cases t <;> simp [List.filter_cons, ih]

theorem filter_map_pair (l : List ℤ) (f : ℤ → ℚ) (h : ℤ) :
    (l.map (fun k => (k, f k))).filter (fun r => r.1 == h) =
      (l.filter (fun k => k == h)).map (fun k => (k, f k)) := by
  induction l with
  | nil => rfl
  | cons k rest ih => by_cases hk : k = h <;> simp [List.filter_cons, hk, ih]

theorem nodup_filter_eq {l : List ℤ} (hnd : l.Nodup) (h : ℤ) :
    l.filter (fun k => k == h) = if h ∈ l then [h] else [] := by
  induction l with
  | nil => simp
  | cons k rest ih =>
    rw [List.nodup_cons] at hnd
    by_cases hk : k = h
    · subst hk
      rw [List.filter_cons_of_pos (by simp)]
      have hrest : rest.filter (fun k' => k' == k) = [] := by
        rw [List.filter_eq_nil_iff]
        intro a ha
        simp only [beq_iff_eq]
        rintro rfl
        exact hnd.1 ha
      rw [hrest, if_pos (List.mem_cons_self _ _)]
    · rw [List.filter_cons_of_neg (by simp [hk])]
      rw [ih hnd.2]
      by_cases hm : h ∈ rest
      · rw [if_pos hm, if_pos (List.mem_cons_of_mem _ hm)]
      · rw [if_neg hm, if_neg ?_]
        intro hcon
        rcases List.mem_cons.mp hcon with rfl | hx
        · exact hk rfl
        · exact hm hx

theorem tileAggregate_filter (toHex : ℚ → ℚ → ℤ) (t : List GeoSample) (h : ℤ) :
    ((tileAggregate toHex t).filter (fun r => r.1 == h)).map Prod.snd =
      if h ∈ t.map (hexOf toHex) then
        [avg ((t.filter (fun s => hexOf toHex s == h)).map GeoSample.elevation)]
      else [] := by
  unfold tileAggregate groupByAvg
  rw [filter_map_pair, nodup_filter_eq (List.nodup_dedup _) h]
  by_cases hm : h ∈ t.map (hexOf toHex)
  · rw [if_pos (List.mem_dedup.mpr hm), if_pos hm]
    simp
  · rw [if_neg (fun hc => hm (List.mem_dedup.mp hc)), if_neg hm]
    rfl

theorem mem_keys_tileAggregate (toHex : ℚ → ℚ → ℤ) (t : List GeoSample) (h : ℤ) :
    h ∈ (tileAggregate toHex t).map Prod.fst ↔ h ∈ t.map (hexOf toHex) := by
  unfold tileAggregate
  rw [map_fst_groupByAvg]
  exact List.mem_dedup

theorem mem_keys_flatten_tileAgg (toHex : ℚ → ℚ → ℤ)
    (tiles : List (List GeoSample)) (h : ℤ) :
    h ∈ ((tiles.map (tileAggregate toHex)).flatten).map Prod.fst ↔
      h ∈ (tiles.flatten).map (hexOf toHex) := by
  induction tiles with
  | nil => simp
  | cons t rest ih =>
    simp only [List.map_cons, List.flatten_cons, List.map_append, List.mem_append, ih,
      mem_keys_tileAggregate]

theorem flatten_tileAgg_filter (toHex : ℚ → ℚ → ℤ)
    (tiles : List (List GeoSample)) (h : ℤ) :
    (((tiles.map (tileAggregate toHex)).flatten.filter (fun r => r.1 == h)).map
        Prod.snd) =
      (tiles.filter (fun t => decide (h ∈ t.map (hexOf toHex)))).map
        (fun t => avg ((t.filter (fun s => hexOf toHex s == h)).map
          GeoSample.elevation)) := by
  induction tiles with
  | nil => rfl
  | cons t rest ih =>
    simp only [List.map_cons, List.flatten_cons, List.filter_append, List.map_append]
    rw [tileAggregate_filter, ih]
    by_cases hm : h ∈ t.map (hexOf toHex)
    · rw [if_pos hm, List.filter_cons_of_pos (by simpa using hm)]
      simp
    · rw [if_neg hm, List.filter_cons_of_neg (by simpa using hm)]
      simp

theorem filter_hex_eq_nil {toHex : ℚ → ℚ → ℤ} {t : List GeoSample} {h : ℤ}
    (hn : h ∉ t.map (hexOf toHex)) :
    t.filter (fun s => hexOf toHex s == h) = [] := by
  rw [List.filter_eq_nil_iff]
  intro s hs
  simp only [beq_iff_eq]
  exact fun he => hn (he ▸ List.mem_map_of_mem (hexOf toHex) hs)

theorem twoPhase_lookup (toHex : ℚ → ℚ → ℤ) (tiles : List (List GeoSample)) (h : ℤ) :
    lookupMetric h (twoPhaseAggregate toHex tiles) =
      if h ∈ (tiles.flatten).map (hexOf toHex) then
        some (avg ((tiles.filter (fun t => decide (h ∈ t.map (hexOf toHex)))).map
          (fun t => avg ((t.filter (fun s => hexOf toHex s == h)).map
            GeoSample.elevation))))
      else none := by
  unfold twoPhaseAggregate
  rw [lookupMetric_mergeTables, flatten_filter_ne_empty, flatten_tileAgg_filter]
  simp only [mem_keys_flatten_tileAgg]

theorem singlePass_lookup (toHex : ℚ → ℚ → ℤ) (samples : List GeoSample) (h : ℤ) :
    lookupMetric h (singlePassAggregate toHex samples) =
      if h ∈ samples.map (hexOf toHex) then
        some (avg ((samples.filter (fun s => hexOf toHex s == h)).map
          GeoSample.elevation))
      else none := by
  unfold singlePassAggregate
  exact lookupMetric_groupByAvg _ _ _ _

theorem sum_map_div (L : List (List ℚ)) (c : ℚ) :
    (L.map (fun l => l.sum / c)).sum = (L.map List.sum).sum / c := by
  induction L with
  | nil => simp
  | cons l rest ih => simp [ih, add_div]

theorem length_flatten_const {L : List (List ℚ)} {c : ℕ}
    (hlen : ∀ l ∈ L, l.length = c) :
    L.flatten.length = L.length * c := by
  induction L with
  | nil => simp
  | cons l rest ih =>
    have h1 := hlen l (List.mem_cons_self _ _)
    have h2 := ih (fun x hx => hlen x (List.mem_cons_of_mem _ hx))
    simp only [List.flatten_cons, List.length_append, List.length_cons, h1, h2]
    ring

theorem avg_avg_eq_avg_flatten (L : List (List ℚ)) (c : ℕ)
    (hlen : ∀ l ∈ L, l.length = c) :
    avg (L.map avg) = avg L.flatten := by
  have hmap : L.map avg = L.map (fun l => l.sum / (c : ℚ)) :=
    List.map_congr_left (fun l hl => by rw [avg, hlen l hl])
  rw [hmap]
  simp only [avg]
  rw [sum_map_div, List.length_map, List.sum_flatten, length_flatten_const hlen,
    Nat.cast_mul, div_div, mul_comm ((c : ℕ) : ℚ) ((L.length : ℕ) : ℚ)]

theorem flatten_map_eq_flatten_filter (l : List α) (P : α → Bool) (f : α → List β)
    (hf : ∀ t ∈ l, P t = false → f t = []) :
    ((l.filter P).map f).flatten = (l.map f).flatten := by
  induction l with
  | nil => rfl
  | cons t rest ih =>
    have ihr := ih (fun x hx => hf x (List.mem_cons_of_mem _ hx))
    cases hP : P t with
    | true => rw [List.filter_cons_of_pos hP]; simp [ihr]
    | false =>
      rw [List.filter_cons_of_neg (by simp [hP])]
      simp [ihr, hf t (List.mem_cons_self _ _) hP]

/-- C1 counterexample: hex id 0 receives one sample (elevation 0) from the
first tile and two samples (elevation 3 each) from the second, so the
two-phase aggregation yields the mean of the tile-local means,
(0 + 3) / 2 = 3/2, while the single-pass aggregation over all samples of
the area yields (0 + 3 + 3) / 3 = 2. -/
theorem twoPhase_ne_singlePass_example :
    lookupMetric 0 (twoPhaseAggregate (fun _ _ => 0)
        [[⟨0, 0, 0⟩], [⟨0, 0, 3⟩, ⟨0, 0, 3⟩]]) = some (3 / 2) ∧
      lookupMetric 0 (singlePassAggregate (fun _ _ => 0)
        ([[⟨0, 0, 0⟩], [⟨0, 0, 3⟩, ⟨0, 0, 3⟩]] : List (List GeoSample)).flatten) =
        some 2 ∧
      (3 / 2 : ℚ) ≠ 2 := by
  refine ⟨?_, ?_, by norm_num⟩
  · rw [twoPhase_lookup, if_pos (by decide)]
    norm_num [hexOf, avg, List.filter_cons]
  · rw [singlePass_lookup, if_pos (by decide)]
    norm_num [hexOf, avg, List.filter_cons]

/-- C1 (amended): the two-phase aggregation agrees with the single-pass
aggregation at a hex id exactly under the spec's own proviso: whenever every
tile contributing samples to that hex id contributes the same number of
samples.  (The counterexample shows the agreement fails for unequal
per-tile sample counts, so the claim's unconditional equivalence does not
hold.) -/
theorem twoPhase_eq_singlePass_of_equal_counts (toHex : ℚ → ℚ → ℤ)
    (tiles : List (List GeoSample)) (h : ℤ) (c : ℕ)
    (hcount : ∀ t ∈ tiles,
      (t.filter (fun s => hexOf toHex s == h)).length = 0 ∨
        (t.filter (fun s => hexOf toHex s == h)).length = c) :
    lookupMetric h (twoPhaseAggregate toHex tiles) =
      lookupMetric h (singlePassAggregate toHex tiles.flatten) := by
  rw [twoPhase_lookup, singlePass_lookup]
  by_cases hm : h ∈ (tiles.flatten).map (hexOf toHex)
  · rw [if_pos hm, if_pos hm]
    congr 1
    have hsplit :
        (tiles.flatten.filter (fun s => hexOf toHex s == h)).map GeoSample.elevation =
          ((tiles.filter (fun t => decide (h ∈ t.map (hexOf toHex)))).map
            (fun t => (t.filter (fun s => hexOf toHex s == h)).map
              GeoSample.elevation)).flatten := by
      rw [List.filter_flatten, List.map_flatten, List.map_map]
      exact (flatten_map_eq_flatten_filter tiles _ _
        (fun t _ hP => by
          have hnot : h ∉ t.map (hexOf toHex) := by simpa using hP
          simp [Function.comp, filter_hex_eq_nil hnot])).symm
    rw [show (fun t : List GeoSample =>
          avg ((t.filter (fun s => hexOf toHex s == h)).map GeoSample.elevation)) =
        avg ∘ (fun t : List GeoSample =>
          (t.filter (fun s => hexOf toHex s == h)).map GeoSample.elevation)
      from rfl]
    rw [← List.map_map, avg_avg_eq_avg_flatten _ c ?_, hsplit]
    intro l hl
    obtain ⟨t, ht, rfl⟩ := List.mem_map.mp hl
    have htt := List.mem_filter.mp ht
    rw [List.length_map]
    rcases hcount t htt.1 with h0 | hc'
    · exfalso
      have hk : h ∈ t.map (hexOf toHex) := by simpa using htt.2
      obtain ⟨s, hs, hsh⟩ := List.mem_map.mp hk
      have : s ∈ t.filter (fun s => hexOf toHex s == h) :=
        List.mem_filter.mpr ⟨hs, by simp [hsh]⟩
      rw [List.length_eq_zero] at h0
      rw [h0] at this
      cases this
    · exact hc'
  · rw [if_neg hm, if_neg hm]

/-- C1 witness: two tiles contributing one sample each to hex id 0 (equal
per-tile counts), where the two aggregation strategies agree. -/
theorem twoPhase_eq_singlePass_witness :
    lookupMetric 0 (twoPhaseAggregate (fun _ _ => 0)
        [[⟨0, 0, 0⟩], [⟨0, 0, 3⟩]]) =
      lookupMetric 0 (singlePassAggregate (fun _ _ => 0)
        ([[⟨0, 0, 0⟩], [⟨0, 0, 3⟩]] : List (List GeoSample)).flatten) :=
  twoPhase_eq_singlePass_of_equal_counts (fun _ _ => 0)
    [[⟨0, 0, 0⟩], [⟨0, 0, 3⟩]] 0 1 (by decide)

end Elev
